import Mathlib

/-!
Verification development for the lazy-email-to-spreadsheet repository.

Shallow embedding of the core logic:
* the status lattice (`src/lazy_email/models/email.py`),
* the company and role normalizers (same file; the Python regular
  expressions are embedded as explicit scanners over lists of characters
  with the exact left-to-right, non-overlapping substitution semantics of
  Python `re.sub` for these concrete patterns),
* the status string mapper (`src/lazy_email/llm/extractor.py`),
* the in-batch deduplication loop of `process_emails`
  (`src/lazy_email/main.py`, lines 489 to 512) and the snapshot builder
  `get_existing_applications` (`src/lazy_email/sheets/client.py`),
* the processing ledger `StateManager` (`src/lazy_email/state/__init__.py`).

I/O is modelled by explicit data: the ledger file is an `Option` of the
persisted record, the wall clock and the success of a file write are
parameters of the operations that consult them.
-/

/-! ### Status lattice, from src/lazy_email/models/email.py -/

/-- The `ApplicationStatus` enum. The string values are the ones the
Google Sheet dropdown uses; they matter for `get_existing_applications`
which parses sheet cells back into the enum. -/
inductive ApplicationStatus : Type
  | SUBMITTED
  | REJECTED
  | INTERVIEW
  | OA_INVITE
  | NA
deriving DecidableEq, Repr, Fintype

/-- The dropdown string of each status (the `.value` of the Python enum). -/
def ApplicationStatus.value : ApplicationStatus → String
  | .SUBMITTED => "Submitted Application - Pending Response"
  | .REJECTED => "Rejected"
  | .INTERVIEW => "Interview"
  | .OA_INVITE => "OA Invite"
  | .NA => "N/A"

/-- Table `STATUS_PRIORITY`: rank table used when merging duplicate records.
Higher number means further along in the application process. -/
def STATUS_PRIORITY : ApplicationStatus → Nat
  | .NA => 0
  | .SUBMITTED => 1
  | .OA_INVITE => 2
  | .INTERVIEW => 3
  | .REJECTED => 4

/-- Predicate `should_update_status(existing, new)`: true when the new status
strictly outranks the existing one. The Python code reads the priorities
with `.get(status, 0)`; every member of the enum is a key of the table,
so the default never fires and the total function below is exact. -/
def should_update_status (existing new : ApplicationStatus) : Bool :=
  STATUS_PRIORITY new > STATUS_PRIORITY existing

/-! ### Character and string helpers shared by the normalizers

Python string inputs are modelled as `List Char`. The helpers mirror
`str.lower`, `str.strip` and the character classes `\s`, `\w`, `\d` of
the `re` module, restricted to ASCII, which covers every string the
program manipulates here. -/

/-- ASCII whitespace, the characters `str.strip` and `\s` recognise. -/
def isPyWs (c : Char) : Bool :=
  c = ' ' || c = '\t' || c = '\n' || c = '\x0d' || c = '\x0c' || c = '\x0b'

/-- ASCII lower-casing of one character, as `str.lower` does. -/
def pyLowerChar (c : Char) : Char :=
  if 'A' ≤ c ∧ c ≤ 'Z' then Char.ofNat (c.toNat + 32) else c

/-- ASCII lower-casing of a string. -/
def asciiLower (l : List Char) : List Char := l.map pyLowerChar

/-- Model of `str.strip()`: drop leading and trailing whitespace. -/
def pyStrip (l : List Char) : List Char :=
  ((l.dropWhile isPyWs).reverse.dropWhile isPyWs).reverse

/-- The `\w` class of `re`: alphanumeric or underscore. -/
def isWordChar (c : Char) : Bool := c.isAlphanum || c = '_'

/-- Word-char test lifted to an optional character; `none` stands for a
string boundary, which counts as a non-word position for `\b`. -/
def isWordOpt : Option Char → Bool
  | none => false
  | some c => isWordChar c

/-- Does the second list start with the first one? -/
def listStartsWith : List Char → List Char → Bool
  | [], _ => true
  | _ :: _, [] => false
  | p :: ps, c :: cs => p = c && listStartsWith ps cs

/-- Python substring containment `needle in hay` for strings; the empty
needle is contained in everything. -/
def isSubstr : List Char → List Char → Bool
  | n, [] => n.isEmpty
  | n, h@(_ :: t) => listStartsWith n h || isSubstr n t

/-- Model of `re.sub(r"\s+", " ", s)`: collapse each maximal whitespace run to a
single space. The flag records whether the previous character was part
of a run already replaced. -/
def collapseWsGo (prevWs : Bool) : List Char → List Char
  | [] => []
  | c :: t =>
    if isPyWs c then
      if prevWs then collapseWsGo true t else ' ' :: collapseWsGo true t
    else c :: collapseWsGo false t

/-- Collapse whitespace runs, starting outside a run. -/
def collapseWs (l : List Char) : List Char := collapseWsGo false l

/-! ### Company name normalization, from src/lazy_email/models/email.py

`normalize_company_name` applies one `re.sub` per legal-entity suffix
pattern of the shape `,?\s*word\.?$` (the `\.?` is present only for the
abbreviated suffixes), then folds punctuation and whitespace. An
end-anchored pattern has at most one match: the leftmost position whose
remainder lies in the language `optional comma, whitespace run, word,
optional dot`; `re.sub` deletes that remainder. -/

/-- Does `t` consist exactly of `word` followed by an optional dot
(when the pattern carries `\.?`)? -/
def matchWordEnd (word : List Char) (dotOpt : Bool) (t : List Char) : Bool :=
  t = word || (dotOpt && t = word ++ ['.'])

/-- Does `t` lie in the language of `,?\s*word(\.?)$`? The suffix words
contain no comma and no whitespace, so the optional comma is taken
exactly when `t` starts with one and `\s*` consumes the whole following
whitespace run. -/
def suffixMatchAt (word : List Char) (dotOpt : Bool) (t : List Char) : Bool :=
  match t with
  | ',' :: r => matchWordEnd word dotOpt (r.dropWhile isPyWs)
  | _ => matchWordEnd word dotOpt (t.dropWhile isPyWs)

/-- Model of `re.sub(r",?\s*word(\.?)$", "", s)`: scan left to right and delete
the remainder at the first position where the pattern matches. -/
def stripSuffixRe (word : List Char) (dotOpt : Bool) : List Char → List Char
  | [] => []
  | c :: t => if suffixMatchAt word dotOpt (c :: t) then [] else c :: stripSuffixRe word dotOpt t

/-- The suffix patterns of `normalize_company_name`, in source order;
the flag records whether the pattern ends in `\.?`. -/
def company_suffixes : List (List Char × Bool) :=
  [("inc".data, true), ("llc".data, true), ("ltd".data, true),
   ("corp".data, true), ("corporation".data, false), ("company".data, false),
   ("co".data, true), ("incorporated".data, false), ("limited".data, false),
   ("gmbh".data, false), ("plc".data, true)]

/-- Function `normalize_company_name(name)`: lower-case and trim, strip the
legal-entity suffixes in order, replace every character outside `\w` and
`\s` by a space, collapse whitespace and trim again. Empty input gives
the empty key. -/
def normalize_company_name (name : String) : String :=
  if name = "" then "" else
    let s := pyStrip (asciiLower name.data)
    let s := company_suffixes.foldl (fun s p => stripSuffixRe p.1 p.2 s) s
    let s := s.map (fun c => if isWordChar c || isPyWs c then c else ' ')
    let s := collapseWs s
    String.mk (pyStrip s)

/-! ### Role normalization, from src/lazy_email/models/email.py

`normalize_role` performs word-bounded substitutions. Each abbreviation
pattern `\bword\b` is replaced everywhere by its expansion; `re.sub`
finds non-overlapping matches left to right in the original string and
does not rescan replacement text, which the fuel-driven scanners below
reproduce. Every pattern word starts and ends with a word character, so
the boundary `\b` holds exactly when the neighbouring position is not a
word character. -/

/-- One pass of `re.sub(r"\bpat\b", rep, s)` over the remaining
characters; `prev` is the character just before the current position in
the original string, `none` at the start. The fuel starts at the length
of the string, and every step consumes at least one character. -/
def subWordGo (pat rep : List Char) : Nat → Option Char → List Char → List Char
  | 0, _, s => s
  | _ + 1, _, [] => []
  | fuel + 1, prev, c :: t =>
    if !isWordOpt prev && listStartsWith pat (c :: t)
        && !isWordOpt ((c :: t).drop pat.length).head? then
      rep ++ subWordGo pat rep fuel (some (pat.getLastD c)) ((c :: t).drop pat.length)
    else
      c :: subWordGo pat rep fuel (some c) t

/-- Model of `re.sub(r"\bpat\b", rep, s)` for a literal word `pat`. -/
def subWord (pat rep : List Char) (s : List Char) : List Char :=
  subWordGo pat rep s.length none s

/-- The abbreviation table of `normalize_role`, in source order. -/
def role_abbreviations : List (List Char × List Char) :=
  [("swe".data, "software engineer".data),
   ("sde".data, "software development engineer".data),
   ("ml".data, "machine learning".data),
   ("ai".data, "artificial intelligence".data),
   ("fe".data, "frontend".data),
   ("be".data, "backend".data),
   ("qa".data, "quality assurance".data),
   ("ui".data, "user interface".data),
   ("ux".data, "user experience".data)]

/-- Generic deletion scanner: like `subWordGo` with empty replacement,
driven by a matcher that reports how many characters the regular
expression consumes at the current position, or `none`. After a match
the scan resumes past the consumed characters with `prev` set to the
last consumed character. -/
def delScanGo (matchLen : Option Char → List Char → Option Nat) :
    Nat → Option Char → List Char → List Char
  | 0, _, s => s
  | _ + 1, _, [] => []
  | fuel + 1, prev, c :: t =>
    match matchLen prev (c :: t) with
    | some k => delScanGo matchLen fuel (some (((c :: t).take k).getLastD c)) ((c :: t).drop k)
    | none => c :: delScanGo matchLen fuel (some c) t

/-- Run a deletion scanner over a whole string. -/
def delScan (matchLen : Option Char → List Char → Option Nat) (s : List Char) : List Char :=
  delScanGo matchLen s.length none s

/-- The season words of the date pattern, in alternation order. -/
def season_words : List (List Char) :=
  ["summer".data, "fall".data, "spring".data, "winter".data]

/-- Match one alternative of `\b(summer|fall|spring|winter)\s*\d{4}\b`
at the current position: the season word, the whole following
whitespace run (greedy `\s*` cannot backtrack into a digit), exactly
four digits, and a non-word character or the end after them. Returns
the number of characters consumed. -/
def trySeasonWord (w : List Char) (s : List Char) : Option Nat :=
  if listStartsWith w s then
    let r := s.drop w.length
    let wsn := (r.takeWhile isPyWs).length
    let r2 := r.drop wsn
    if (r2.take 4).length = 4 && (r2.take 4).all Char.isDigit
        && !isWordOpt (r2.drop 4).head? then
      some (w.length + wsn + 4)
    else none
  else none

/-- Matcher for `\b(summer|fall|spring|winter)\s*\d{4}\b`; the leading
boundary needs the previous character to be a non-word one. -/
def matchSeasonYear (prev : Option Char) (s : List Char) : Option Nat :=
  if isWordOpt prev then none
  else season_words.findSome? (fun w => trySeasonWord w s)

/-- Matcher for `\b20\d{2}\b`. -/
def matchYear (prev : Option Char) (s : List Char) : Option Nat :=
  if isWordOpt prev then none
  else
    match s with
    | '2' :: '0' :: d1 :: d2 :: rest =>
      if d1.isDigit && d2.isDigit && !isWordOpt rest.head? then some 4 else none
    | _ => none

/-- Function `normalize_role(role)`: lower-case and trim, expand the
abbreviations, fold internship to intern, strip season-year and bare
year tokens, collapse whitespace and trim. Empty input gives the empty
key. -/
def normalize_role (role : String) : String :=
  if role = "" then "" else
    let s := pyStrip (asciiLower role.data)
    let s := role_abbreviations.foldl (fun s p => subWord p.1 p.2 s) s
    let s := subWord "internship".data "intern".data s
    let s := delScan matchSeasonYear s
    let s := delScan matchYear s
    let s := collapseWs s
    String.mk (pyStrip s)

/-! ### Status string mapper, from src/lazy_email/llm/extractor.py -/

/-- Table `STATUS_MAPPINGS` in dictionary insertion order, which the partial
match loop of `_map_status_to_enum` iterates in. -/
def STATUS_MAPPINGS : List (String × ApplicationStatus) :=
  [("submitted", .SUBMITTED), ("application received", .SUBMITTED),
   ("application submitted", .SUBMITTED), ("pending", .SUBMITTED),
   ("under review", .SUBMITTED), ("received", .SUBMITTED),
   ("confirmed", .SUBMITTED), ("applied", .SUBMITTED),
   ("rejected", .REJECTED), ("not selected", .REJECTED),
   ("unsuccessful", .REJECTED), ("declined", .REJECTED),
   ("not moving forward", .REJECTED), ("position filled", .REJECTED),
   ("closed", .REJECTED),
   ("interview", .INTERVIEW), ("interview scheduled", .INTERVIEW),
   ("phone screen", .INTERVIEW), ("technical interview", .INTERVIEW),
   ("onsite", .INTERVIEW), ("final round", .INTERVIEW),
   ("hiring manager", .INTERVIEW),
   ("oa", .OA_INVITE), ("oa invite", .OA_INVITE),
   ("online assessment", .OA_INVITE), ("coding challenge", .OA_INVITE),
   ("assessment", .OA_INVITE), ("hackerrank", .OA_INVITE),
   ("codility", .OA_INVITE), ("codesignal", .OA_INVITE),
   ("take home", .OA_INVITE), ("technical assessment", .OA_INVITE),
   ("n/a", .NA), ("na", .NA), ("unknown", .NA), ("unclear", .NA),
   ("other", .NA)]

/-- The body of `_map_status_to_enum` applied to the already lowered
and stripped status string: first an exact dictionary lookup, then the
bidirectional substring loop over the mappings in insertion order, and
finally the `N/A` default. -/
def mapStatusLower (status_lower : String) : ApplicationStatus :=
  match STATUS_MAPPINGS.find? (fun p => decide (p.1 = status_lower)) with
  | some p => p.2
  | none =>
    match STATUS_MAPPINGS.find?
        (fun p => isSubstr p.1.data status_lower.data
          || isSubstr status_lower.data p.1.data) with
    | some p => p.2
    | none => .NA

/-- Function `_map_status_to_enum(status_raw)`: lower-case and strip, then map. -/
def _map_status_to_enum (status_raw : String) : ApplicationStatus :=
  mapStatusLower (String.mk (pyStrip (asciiLower status_raw.data)))

/-! ### Reconciliation engine, from src/lazy_email/main.py lines 489-512

The struct mirrors the Python loop locals. Rows the sheet client would
write are recorded as data: `new_applications` is the list handed to
`append_rows` at the end, `updates` records each `update_row` call with
its row index, status and link, and `skipped_count` counts the records
discarded as duplicates. The snapshot `existing_apps` is the dictionary
from identity key to row index, status and link; a row index of zero is
the sentinel for a record queued in this batch and not yet written. -/

/-- A `JobApplication` record, from src/lazy_email/models/email.py. -/
structure JobApplication : Type where
  company_name : String
  role : String
  status : ApplicationStatus
  date_submitted : String
  email_link : String
deriving DecidableEq, Repr

/-- Identity keys are pairs of normalized company and role. -/
abbrev SnapKey := String × String

/-- Snapshot values: row index, current status, current email link. -/
abbrev SnapVal := Nat × ApplicationStatus × String

/-- The snapshot dictionary, modelled as an association list with the
insertion-order update semantics of a Python dict. -/
abbrev Snapshot := List (SnapKey × SnapVal)

/-- Dictionary lookup `existing_apps[key]`. -/
def snapLookup (m : Snapshot) (k : SnapKey) : Option SnapVal :=
  (m.find? (fun p => decide (p.1 = k))).map Prod.snd

/-- Dictionary membership `key in existing_apps`. -/
def snapHasKey (m : Snapshot) (k : SnapKey) : Bool :=
  m.any (fun p => decide (p.1 = k))

/-- Dictionary assignment `existing_apps[key] = v`: replace the entry
in place when the key is present, append otherwise. -/
def snapInsert : Snapshot → SnapKey → SnapVal → Snapshot
  | [], k, v => [(k, v)]
  | p :: t, k, v => if p.1 = k then (k, v) :: t else p :: snapInsert t k v

/-- The identity key of a record, as the loop computes it. -/
def appKey (app : JobApplication) : SnapKey :=
  (normalize_company_name app.company_name, normalize_role app.role)

/-- The loop state of the deduplication pass. -/
structure DedupResult : Type where
  existing : Snapshot
  new_applications : List JobApplication
  updates : List (Nat × ApplicationStatus × String)
  skipped_count : Nat
deriving DecidableEq, Repr

/-- One iteration of the `for app in applications` loop. A key found
with the sentinel row index zero is skipped unconditionally; a key
found with a real row index triggers an update action exactly when
`should_update_status` holds, and the snapshot entry is left as it was;
an absent key queues the record as new and inserts the sentinel entry
carrying its status and link. -/
def dedupStep (acc : DedupResult) (app : JobApplication) : DedupResult :=
  let key := appKey app
  match snapLookup acc.existing key with
  | some (row_idx, current_status, _) =>
    if row_idx = 0 then
      { acc with skipped_count := acc.skipped_count + 1 }
    else if should_update_status current_status app.status then
      { acc with updates := acc.updates ++ [(row_idx, app.status, app.email_link)] }
    else
      { acc with skipped_count := acc.skipped_count + 1 }
  | none =>
    { acc with
      new_applications := acc.new_applications ++ [app],
      existing := snapInsert acc.existing key (0, app.status, app.email_link) }

/-- The whole deduplication pass of `process_emails` over one batch
against a snapshot of existing applications. -/
def process_batch (existing_apps : Snapshot) (applications : List JobApplication) :
    DedupResult :=
  applications.foldl dedupStep
    { existing := existing_apps, new_applications := [], updates := [], skipped_count := 0 }

/-! ### Snapshot builder, from src/lazy_email/sheets/client.py -/

/-- Model of `ApplicationStatus(status_str)` with the `ValueError` handler of
`get_existing_applications`: an unrecognised cell value parses to NA. -/
def parseStatusCell (status_str : String) : ApplicationStatus :=
  if status_str = ApplicationStatus.SUBMITTED.value then .SUBMITTED
  else if status_str = ApplicationStatus.REJECTED.value then .REJECTED
  else if status_str = ApplicationStatus.INTERVIEW.value then .INTERVIEW
  else if status_str = ApplicationStatus.OA_INVITE.value then .OA_INVITE
  else if status_str = ApplicationStatus.NA.value then .NA
  else .NA

/-- One row of `get_existing_applications`: rows shorter than three
cells are ignored, the key is the normalized company and role, and the
entry is stored only when both halves of the key are non-empty. `i` is
the 1-based sheet row index. -/
def snapshotAddRow (acc : Snapshot) (i : Nat) (row : List String) : Snapshot :=
  if 3 ≤ row.length then
    let company := row.getD 0 ""
    let status_str := row.getD 1 "N/A"
    let role := row.getD 2 ""
    let email_link := if 4 < row.length then row.getD 4 "" else ""
    let status := parseStatusCell status_str
    let key := (normalize_company_name company, normalize_role role)
    if key.1 ≠ "" ∧ key.2 ≠ "" then snapInsert acc key (i, status, email_link) else acc
  else acc

/-- Function `get_existing_applications` over the cell values read from the
sheet: skip the header row, then process data rows starting at sheet
row index 2. -/
def get_existing_applications (values : List (List String)) : Snapshot :=
  ((values.drop 1).enum).foldl (fun acc p => snapshotAddRow acc (p.1 + 2) p.2) []

/-! ### Processing ledger, from src/lazy_email/state/__init__.py

The Python set of processed ids is modelled as a duplicate-free list in
insertion order; `save` serialises it as a list, and `load` rebuilds the
set from that list, so the persisted form is the `ProcessingState`
record itself. The state file is carried inside the manager as an
`Option ProcessingState` standing for the contents of the JSON file at
the configured path (`none` when the file does not exist). The wall
clock reading `datetime.now().isoformat()` and the success of the file
system operation are explicit parameters `now`, `write_ok` and
`unlink_ok` of the operations that perform them. -/

/-- The `ProcessingState` pydantic model. -/
structure ProcessingState : Type where
  processed_ids : List String
  last_processed_id : Option String
  last_run : Option String
  since_date : Option String
  total_processed : Nat
  total_written : Nat
deriving DecidableEq, Repr

/-- The defaults of `ProcessingState()`. -/
def ProcessingState.initial : ProcessingState :=
  { processed_ids := [], last_processed_id := none, last_run := none,
    since_date := none, total_processed := 0, total_written := 0 }

/-- The `StateManager` together with the contents of its state file. -/
structure StateManager : Type where
  save_interval : Nat
  state : ProcessingState
  unsaved_count : Nat
  state_file : Option ProcessingState
deriving DecidableEq, Repr

/-- Constructor `StateManager(state_file=..., save_interval=...)`: fresh in-memory
state over whatever the file currently holds. -/
def StateManager.fresh (save_interval : Nat) (state_file : Option ProcessingState) :
    StateManager :=
  { save_interval := save_interval, state := ProcessingState.initial,
    unsaved_count := 0, state_file := state_file }

/-- Method `save()`: stamp `last_run`, then serialise the state to the file.
Both the serialisation and the write happen inside a `try` block whose
handler only logs, so a failing write (`write_ok = false`) leaves the
file and the unsaved counter untouched and the method still returns;
the `last_run` stamp happens before the fallible part and survives
either way. The counter is reset only after a successful write. -/
def StateManager.save (m : StateManager) (now : String) (write_ok : Bool) : StateManager :=
  let st := { m.state with last_run := some now }
  if write_ok then
    { m with state := st, state_file := some st, unsaved_count := 0 }
  else
    { m with state := st }

/-- Method `load()`: read the file if it exists; on success replace the state
and answer true, otherwise leave the fresh state and answer false. -/
def StateManager.load (m : StateManager) : StateManager × Bool :=
  match m.state_file with
  | none => (m, false)
  | some data => ({ m with state := data }, true)

/-- Model of `set.add` on the list model of a Python set: append the element
when it is not already present. -/
def setAdd (l : List String) (x : String) : List String :=
  if x ∈ l then l else l ++ [x]

/-- Method `is_processed(message_id)`. -/
def StateManager.is_processed (m : StateManager) (message_id : String) : Bool :=
  decide (message_id ∈ m.state.processed_ids)

/-- Method `mark_processed(message_id, auto_save)`: add to the processed set,
remember the last id, count the call, count it as unsaved, and flush
through `save` once the unsaved counter reaches the save interval. -/
def StateManager.mark_processed (m : StateManager) (message_id now : String)
    (auto_save write_ok : Bool) : StateManager :=
  let st := { m.state with
    processed_ids := setAdd m.state.processed_ids message_id,
    last_processed_id := some message_id,
    total_processed := m.state.total_processed + 1 }
  let m1 := { m with state := st, unsaved_count := m.unsaved_count + 1 }
  if auto_save ∧ m1.save_interval ≤ m1.unsaved_count then m1.save now write_ok else m1

/-- Method `mark_written(count)`. -/
def StateManager.mark_written (m : StateManager) (count : Nat) : StateManager :=
  { m with state := { m.state with total_written := m.state.total_written + count } }

/-- Method `set_since_date(since_date)`. -/
def StateManager.set_since_date (m : StateManager) (since_date : String) : StateManager :=
  { m with state := { m.state with since_date := some since_date } }

/-- Method `get_unprocessed(message_ids)`: keep, in order, the ids not in the
processed set. -/
def StateManager.get_unprocessed (m : StateManager) (message_ids : List String) :
    List String :=
  message_ids.filter (fun mid => decide (mid ∉ m.state.processed_ids))

/-- Method `reset()`: back to the initial in-memory state and delete the file;
a failing `unlink` (`unlink_ok = false`) is only logged and leaves the
file in place. -/
def StateManager.reset (m : StateManager) (unlink_ok : Bool) : StateManager :=
  let m1 := { m with state := ProcessingState.initial, unsaved_count := 0 }
  if unlink_ok then { m1 with state_file := none } else m1

/-- A run of `mark_processed` calls with `auto_save` left at its
default of true, sharing one clock reading and one write outcome. -/
def markAll (m : StateManager) (ids : List String) (now : String) (write_ok : Bool) :
    StateManager :=
  ids.foldl (fun acc id => acc.mark_processed id now true write_ok) m

/-! ### Helper lemmas about the snapshot dictionary -/

theorem snapLookup_insert_self (m : Snapshot) (k : SnapKey) (v : SnapVal) :
    snapLookup (snapInsert m k v) k = some v := by
  induction m with
  | nil => simp [snapInsert, snapLookup, List.find?]
  | cons p t ih =>
    by_cases h : p.1 = k
    · simp [snapInsert, h, snapLookup, List.find?]
    · simpa [snapInsert, h, snapLookup, List.find?] using ih

theorem snapLookup_isSome_eq_hasKey (m : Snapshot) (k : SnapKey) :
    (snapLookup m k).isSome = snapHasKey m k := by
  induction m with
  | nil => rfl
  | cons p t ih =>
    by_cases h : p.1 = k
    · simp [snapLookup, snapHasKey, List.find?, h]
    · simpa [snapLookup, snapHasKey, List.find?, h] using ih

theorem snapLookup_eq_none_of_hasKey_false (m : Snapshot) (k : SnapKey)
    (h : snapHasKey m k = false) : snapLookup m k = none := by
  have h2 := snapLookup_isSome_eq_hasKey m k
  rw [h] at h2
  exact Option.not_isSome_iff_eq_none.mp (by simp [h2])

theorem snapHasKey_of_lookup_some (m : Snapshot) (k : SnapKey) (v : SnapVal)
    (h : snapLookup m k = some v) : snapHasKey m k = true := by
  have h2 := snapLookup_isSome_eq_hasKey m k
  rw [h] at h2
  simpa using h2.symm

theorem snapHasKey_insert_self (m : Snapshot) (k : SnapKey) (v : SnapVal) :
    snapHasKey (snapInsert m k v) k = true :=
  snapHasKey_of_lookup_some _ _ _ (snapLookup_insert_self m k v)

theorem snapHasKey_insert_mono (m : Snapshot) (k k2 : SnapKey) (v : SnapVal)
    (h : snapHasKey m k2 = true) : snapHasKey (snapInsert m k v) k2 = true := by
  induction m with
  | nil => simp [snapHasKey] at h
  | cons p t ih =>
    simp only [snapHasKey, List.any_cons, Bool.or_eq_true, decide_eq_true_eq] at h
    by_cases hk : p.1 = k
    · have e : snapInsert (p :: t) k v = (k, v) :: t := by simp [snapInsert, hk]
      rw [e]
      simp only [snapHasKey, List.any_cons, Bool.or_eq_true, decide_eq_true_eq]
      rcases h with h | h
      · exact Or.inl (hk ▸ h)
      · exact Or.inr h
    · have e : snapInsert (p :: t) k v = p :: snapInsert t k v := by simp [snapInsert, hk]
      rw [e]
      simp only [snapHasKey, List.any_cons, Bool.or_eq_true, decide_eq_true_eq]
      rcases h with h | h
      · exact Or.inl h
      · exact Or.inr (ih h)

/-! ### Helper lemmas about the deduplication loop -/

theorem dedupStep_hasKey_mono (acc : DedupResult) (a : JobApplication) (k : SnapKey)
    (h : snapHasKey acc.existing k = true) :
    snapHasKey (dedupStep acc a).existing k = true := by
  unfold dedupStep
  cases hl : snapLookup acc.existing (appKey a) with
  | none => simpa [hl] using snapHasKey_insert_mono _ _ _ _ h
  | some v =>
    obtain ⟨ri, cs, l⟩ := v
    by_cases hri : ri = 0
    · simpa [hl, hri] using h
    · by_cases hu : should_update_status cs a.status
      · simpa [hl, hri, hu] using h
      · simpa [hl, hri, hu] using h

theorem dedupStep_adds_key (acc : DedupResult) (a : JobApplication) :
    snapHasKey (dedupStep acc a).existing (appKey a) = true := by
  unfold dedupStep
  cases hl : snapLookup acc.existing (appKey a) with
  | none => simpa [hl] using snapHasKey_insert_self acc.existing (appKey a) _
  | some v =>
    obtain ⟨ri, cs, l⟩ := v
    have hk := snapHasKey_of_lookup_some _ _ _ hl
    by_cases hri : ri = 0
    · simpa [hl, hri] using hk
    · by_cases hu : should_update_status cs a.status
      · simpa [hl, hri, hu] using hk
      · simpa [hl, hri, hu] using hk

theorem foldl_dedupStep_hasKey_mono (batch : List JobApplication) :
    ∀ (acc : DedupResult) (k : SnapKey), snapHasKey acc.existing k = true →
      snapHasKey (batch.foldl dedupStep acc).existing k = true := by
  induction batch with
  | nil => intro acc k h; simpa using h
  | cons b t ih =>
    intro acc k h
    simpa using ih (dedupStep acc b) k (dedupStep_hasKey_mono acc b k h)

theorem foldl_dedupStep_adds_keys (batch : List JobApplication) :
    ∀ (acc : DedupResult) (a : JobApplication), a ∈ batch →
      snapHasKey (batch.foldl dedupStep acc).existing (appKey a) = true := by
  induction batch with
  | nil => intro acc a h; simp at h
  | cons b t ih =>
    intro acc a h
    rcases List.mem_cons.mp h with h | h
    · subst h
      simpa using foldl_dedupStep_hasKey_mono t (dedupStep acc a) (appKey a)
        (dedupStep_adds_key acc a)
    · simpa using ih (dedupStep acc b) a h

theorem dedupStep_found (acc : DedupResult) (a : JobApplication)
    (h : snapHasKey acc.existing (appKey a) = true) :
    (dedupStep acc a).existing = acc.existing ∧
      (dedupStep acc a).new_applications = acc.new_applications := by
  have hs : (snapLookup acc.existing (appKey a)).isSome = true := by
    rw [snapLookup_isSome_eq_hasKey]; exact h
  obtain ⟨v, hl⟩ := Option.isSome_iff_exists.mp hs
  obtain ⟨ri, cs, l⟩ := v
  unfold dedupStep
  by_cases hri : ri = 0
  · simp [hl, hri]
  · by_cases hu : should_update_status cs a.status
    · simp [hl, hri, hu]
    · simp [hl, hri, hu]

theorem foldl_dedupStep_no_new (batch : List JobApplication) :
    ∀ (acc : DedupResult), (∀ a ∈ batch, snapHasKey acc.existing (appKey a) = true) →
      (batch.foldl dedupStep acc).new_applications = acc.new_applications ∧
        (batch.foldl dedupStep acc).existing = acc.existing := by
  induction batch with
  | nil => intro acc _; exact ⟨rfl, rfl⟩
  | cons b t ih =>
    intro acc h
    have hb := h b (List.mem_cons_self b t)
    obtain ⟨he, hn⟩ := dedupStep_found acc b hb
    have ht : ∀ a ∈ t, snapHasKey (dedupStep acc b).existing (appKey a) = true := by
      intro a ha
      rw [he]
      exact h a (List.mem_cons_of_mem b ha)
    obtain ⟨ihn, ihe⟩ := ih (dedupStep acc b) ht
    constructor
    · simpa [ihn] using hn
    · simpa [ihe] using he

theorem foldl_dedupStep_skip_run (rest : List JobApplication) (k : SnapKey)
    (s : ApplicationStatus) (l : String) :
    ∀ (E : Snapshot) (na : List JobApplication)
      (up : List (Nat × ApplicationStatus × String)) (j : Nat),
      (∀ b ∈ rest, appKey b = k) → snapLookup E k = some (0, s, l) →
      rest.foldl dedupStep ⟨E, na, up, j⟩ = ⟨E, na, up, j + rest.length⟩ := by
  induction rest with
  | nil => intro E na up j _ _; simp
  | cons b t ih =>
    intro E na up j hkeys hE
    have hb : appKey b = k := hkeys b (List.mem_cons_self b t)
    have hstep : dedupStep ⟨E, na, up, j⟩ b = ⟨E, na, up, j + 1⟩ := by
      unfold dedupStep
      simp [hb, hE]
    have ht : ∀ c ∈ t, appKey c = k := fun c hc => hkeys c (List.mem_cons_of_mem b hc)
    calc (b :: t).foldl dedupStep ⟨E, na, up, j⟩
        = t.foldl dedupStep ⟨E, na, up, j + 1⟩ := by rw [List.foldl_cons, hstep]
      _ = ⟨E, na, up, (j + 1) + t.length⟩ := ih E na up (j + 1) ht hE
      _ = ⟨E, na, up, j + (b :: t).length⟩ := by
          simp [List.length_cons]
          omega

theorem snapHasKey_insert_elim (m : Snapshot) (k k2 : SnapKey) (v : SnapVal)
    (h : snapHasKey (snapInsert m k v) k2 = true) :
    k2 = k ∨ snapHasKey m k2 = true := by
  induction m with
  | nil =>
    simp only [snapInsert, snapHasKey, List.any_cons, List.any_nil,
      Bool.or_false, decide_eq_true_eq] at h
    exact Or.inl h.symm
  | cons p t ih =>
    by_cases hk : p.1 = k
    · simp only [snapInsert, hk, if_true, snapHasKey, List.any_cons,
        Bool.or_eq_true, decide_eq_true_eq] at h
      rcases h with h | h
      · exact Or.inl h.symm
      · exact Or.inr (by simp [snapHasKey, Bool.or_eq_true, h])
    · simp only [snapInsert, hk, if_false, snapHasKey, List.any_cons,
        Bool.or_eq_true, decide_eq_true_eq] at h
      rcases h with h | h
      · exact Or.inr (by simp [snapHasKey, h])
      · rcases ih h with h2 | h2
        · exact Or.inl h2
        · exact Or.inr (by simp [snapHasKey, Bool.or_eq_true]; exact Or.inr (by simpa [snapHasKey] using h2))

/-! ### Helper lemmas about the processing ledger -/

theorem setAdd_mem (l : List String) (x y : String) :
    y ∈ setAdd l x ↔ y ∈ l ∨ y = x := by
  unfold setAdd
  by_cases h : x ∈ l
  · simp only [h, if_true]
    constructor
    · exact Or.inl
    · rintro (h2 | rfl)
      · exact h2
      · exact h
  · simp [h]

theorem setAdd_nodup (l : List String) (x : String) (h : l.Nodup) :
    (setAdd l x).Nodup := by
  unfold setAdd
  by_cases hx : x ∈ l
  · simpa [hx] using h
  · simp only [hx, if_false]
    rw [List.nodup_append]
    refine ⟨h, List.nodup_singleton x, ?_⟩
    intro a ha hb
    rw [List.mem_singleton] at hb
    subst hb
    exact hx ha

theorem setAdd_length_le (l : List String) (x : String) :
    (setAdd l x).length ≤ l.length + 1 := by
  unfold setAdd
  by_cases hx : x ∈ l
  · simp [hx]
  · simp [hx]

theorem mark_processed_state (m : StateManager) (id now : String) (a ok : Bool) :
    (m.mark_processed id now a ok).state.processed_ids = setAdd m.state.processed_ids id
    ∧ (m.mark_processed id now a ok).state.total_processed = m.state.total_processed + 1
    ∧ (m.mark_processed id now a ok).save_interval = m.save_interval := by
  unfold StateManager.mark_processed StateManager.save
  by_cases hc : (a = true) ∧ m.save_interval ≤ m.unsaved_count + 1
  · by_cases hw : ok = true
    · simp [hc, hw]
    · simp [hc, hw]
  · simp [hc]

theorem markAll_state (ids : List String) :
    ∀ (m : StateManager) (now : String) (ok : Bool),
      (markAll m ids now ok).state.total_processed
          = m.state.total_processed + ids.length
        ∧ (markAll m ids now ok).state.processed_ids
          = ids.foldl setAdd m.state.processed_ids := by
  induction ids with
  | nil => intro m now ok; exact ⟨rfl, rfl⟩
  | cons id t ih =>
    intro m now ok
    obtain ⟨hp, ht, _⟩ := mark_processed_state m id now true ok
    obtain ⟨iht, ihp⟩ := ih (m.mark_processed id now true ok) now ok
    constructor
    · show (markAll m (id :: t) now ok).state.total_processed = _
      unfold markAll at iht ⊢
      rw [List.foldl_cons, iht, ht, List.length_cons]
      omega
    · show (markAll m (id :: t) now ok).state.processed_ids = _
      unfold markAll at ihp ⊢
      rw [List.foldl_cons, ihp, hp, List.foldl_cons]

theorem foldl_setAdd_mem (ids : List String) :
    ∀ (l : List String) (x : String), x ∈ ids.foldl setAdd l ↔ x ∈ l ∨ x ∈ ids := by
  induction ids with
  | nil => intro l x; simp
  | cons id t ih =>
    intro l x
    rw [List.foldl_cons, ih, setAdd_mem]
    constructor
    · rintro ((h | rfl) | h)
      · exact Or.inl h
      · exact Or.inr (List.mem_cons_self x t)
      · exact Or.inr (List.mem_cons_of_mem id h)
    · rintro (h | h)
      · exact Or.inl (Or.inl h)
      · rcases List.mem_cons.mp h with rfl | h
        · exact Or.inl (Or.inr rfl)
        · exact Or.inr h

theorem foldl_setAdd_nodup (ids : List String) :
    ∀ (l : List String), l.Nodup → (ids.foldl setAdd l).Nodup := by
  induction ids with
  | nil => intro l h; exact h
  | cons id t ih =>
    intro l h
    rw [List.foldl_cons]
    exact ih _ (setAdd_nodup l id h)

theorem foldl_setAdd_length (ids : List String) :
    ∀ (l : List String), (ids.foldl setAdd l).length ≤ l.length + ids.length := by
  induction ids with
  | nil => intro l; simp
  | cons id t ih =>
    intro l
    rw [List.foldl_cons]
    calc (t.foldl setAdd (setAdd l id)).length
        ≤ (setAdd l id).length + t.length := ih _
      _ ≤ (l.length + 1) + t.length := by
          exact Nat.add_le_add_right (setAdd_length_le l id) t.length
      _ = l.length + (id :: t).length := by rw [List.length_cons]; omega

theorem markAll_no_save (ids : List String) :
    ∀ (m : StateManager) (now : String) (ok : Bool),
      m.unsaved_count + ids.length < m.save_interval →
      (markAll m ids now ok).state_file = m.state_file
        ∧ (markAll m ids now ok).unsaved_count = m.unsaved_count + ids.length
        ∧ (markAll m ids now ok).save_interval = m.save_interval := by
  induction ids with
  | nil => intro m now ok _; exact ⟨rfl, by simp [markAll], rfl⟩
  | cons id t ih =>
    intro m now ok hlt
    have hle : ¬ m.save_interval ≤ m.unsaved_count + 1 := by
      rw [List.length_cons] at hlt
      omega
    have hstep : (m.mark_processed id now true ok).state_file = m.state_file
        ∧ (m.mark_processed id now true ok).unsaved_count = m.unsaved_count + 1
        ∧ (m.mark_processed id now true ok).save_interval = m.save_interval := by
      unfold StateManager.mark_processed
      simp [hle]
    obtain ⟨hf, hu, hs⟩ := hstep
    have hlt2 : (m.mark_processed id now true ok).unsaved_count + t.length
        < (m.mark_processed id now true ok).save_interval := by
      rw [hu, hs]
      rw [List.length_cons] at hlt
      omega
    obtain ⟨ihf, ihu, ihs⟩ := ih (m.mark_processed id now true ok) now ok hlt2
    refine ⟨?_, ?_, ?_⟩
    · show (markAll m (id :: t) now ok).state_file = m.state_file
      unfold markAll at ihf ⊢
      rw [List.foldl_cons, ihf, hf]
    · show (markAll m (id :: t) now ok).unsaved_count = m.unsaved_count + (id :: t).length
      unfold markAll at ihu ⊢
      rw [List.foldl_cons, ihu, hu, List.length_cons]
      omega
    · show (markAll m (id :: t) now ok).save_interval = m.save_interval
      unfold markAll at ihs ⊢
      rw [List.foldl_cons, ihs, hs]

/-! ### Helper lemmas about the snapshot builder -/

theorem snapInsert_all (P : SnapKey × SnapVal → Bool) (m : Snapshot) (k : SnapKey)
    (v : SnapVal) (hm : m.all P = true) (hkv : P (k, v) = true) :
    (snapInsert m k v).all P = true := by
  induction m with
  | nil => simpa [snapInsert] using hkv
  | cons p t ih =>
    rw [List.all_cons, Bool.and_eq_true] at hm
    by_cases hk : p.1 = k
    · have e : snapInsert (p :: t) k v = (k, v) :: t := by simp [snapInsert, hk]
      rw [e, List.all_cons, Bool.and_eq_true]
      exact ⟨hkv, hm.2⟩
    · have e : snapInsert (p :: t) k v = p :: snapInsert t k v := by simp [snapInsert, hk]
      rw [e, List.all_cons, Bool.and_eq_true]
      exact ⟨hm.1, ih hm.2⟩

theorem snapshotAddRow_all (m : Snapshot) (i : Nat) (row : List String)
    (hm : m.all (fun p => decide (p.1.1 ≠ "" ∧ p.1.2 ≠ "")) = true) :
    (snapshotAddRow m i row).all (fun p => decide (p.1.1 ≠ "" ∧ p.1.2 ≠ "")) = true := by
  unfold snapshotAddRow
  dsimp only
  split_ifs with h1 h2 h3
  · exact snapInsert_all _ m _ _ hm (by simpa using h2)
  · exact snapInsert_all _ m _ _ hm (by simpa using h2)
  · exact hm
  · exact hm

theorem get_existing_applications_keys (rows : List (Nat × List String)) :
    ∀ (acc : Snapshot), acc.all (fun p => decide (p.1.1 ≠ "" ∧ p.1.2 ≠ "")) = true →
      (rows.foldl (fun acc p => snapshotAddRow acc (p.1 + 2) p.2) acc).all
        (fun p => decide (p.1.1 ≠ "" ∧ p.1.2 ≠ "")) = true := by
  induction rows with
  | nil => intro acc h; exact h
  | cons r t ih =>
    intro acc h
    rw [List.foldl_cons]
    exact ih _ (snapshotAddRow_all acc (r.1 + 2) r.2 h)

/-! ### Claim theorems -/

/-- C4: the status lattice uses strict greater-than on the fixed rank
table NA 0, Submitted 1, OA Invite 2, Interview 3, Rejected 4: no status
updates itself, Rejected is never updated, NA is updated by Submitted,
and in general an update happens exactly when the candidate has strictly
larger priority than the existing status. -/
theorem C4_status_lattice :
    (∀ s : ApplicationStatus, should_update_status s s = false)
    ∧ (∀ x : ApplicationStatus, should_update_status .REJECTED x = false)
    ∧ should_update_status .NA .SUBMITTED = true
    ∧ STATUS_PRIORITY .NA = 0 ∧ STATUS_PRIORITY .SUBMITTED = 1
    ∧ STATUS_PRIORITY .OA_INVITE = 2 ∧ STATUS_PRIORITY .INTERVIEW = 3
    ∧ STATUS_PRIORITY .REJECTED = 4
    ∧ (∀ e c : ApplicationStatus,
        should_update_status e c = decide (STATUS_PRIORITY e < STATUS_PRIORITY c)) := by
  decide

/-- C7: a failing persistence operation inside save is swallowed: the
method still returns a ledger whose processed set, total counters,
since-date, unsaved counter and persisted file are all unchanged, so
processing can continue in-memory. Only the last-run stamp, set before
the fallible write, differs. -/
theorem C7_save_swallows_failure (m : StateManager) (now : String) :
    (m.save now false).state.processed_ids = m.state.processed_ids
    ∧ (m.save now false).state.total_processed = m.state.total_processed
    ∧ (m.save now false).state.total_written = m.state.total_written
    ∧ (m.save now false).state.since_date = m.state.since_date
    ∧ (m.save now false).unsaved_count = m.unsaved_count
    ∧ (m.save now false).state_file = m.state_file := by
  unfold StateManager.save
  exact ⟨rfl, rfl, rfl, rfl, rfl, rfl⟩

/-- C8: company normalization identifies the legal-entity variants of
one name: the three spellings all reduce to the key google. -/
theorem C8_company_normalization :
    normalize_company_name "Google, Inc." = "google"
    ∧ normalize_company_name "Google LLC" = "google"
    ∧ normalize_company_name "google" = "google" := by
  decide

/-- C9: a status string whose lower-cased, stripped form is empty is
mapped to SUBMITTED, because the empty string is a substring of the
first mapping key met by the bidirectional partial-match loop. -/
theorem C9_empty_status_maps_to_submitted (s : String)
    (h : pyStrip (asciiLower s.data) = []) :
    _map_status_to_enum s = ApplicationStatus.SUBMITTED := by
  unfold _map_status_to_enum
  rw [h]
  decide

/-- Witness for C9 at the whitespace-only input. -/
theorem C9_empty_status_maps_to_submitted_witness :
    pyStrip (asciiLower "   ".data) = []
    ∧ _map_status_to_enum "   " = ApplicationStatus.SUBMITTED :=
  ⟨by decide, C9_empty_status_maps_to_submitted "   " (by decide)⟩

/-- C5: ledger round trip: mark one message processed, save, and load
the persisted form into a fresh manager; the fresh manager reports the
message as processed and filters it out. In general `get_unprocessed`
returns the order-preserving subsequence of its input made of the ids
outside the processed set. -/
theorem C5_ledger_round_trip :
    ((((StateManager.fresh 10
          (((StateManager.fresh 10 none).mark_processed "m1" "t0" true true).save
              "t1" true).state_file).load).1.is_processed "m1" = true)
      ∧ (((StateManager.fresh 10
          (((StateManager.fresh 10 none).mark_processed "m1" "t0" true true).save
              "t1" true).state_file).load).1.get_unprocessed ["m1", "m2"] = ["m2"]))
    ∧ (∀ (m : StateManager) (ids : List String), (m.get_unprocessed ids).Sublist ids)
    ∧ (∀ (m : StateManager) (ids : List String) (x : String),
        x ∈ m.get_unprocessed ids ↔ x ∈ ids ∧ x ∉ m.state.processed_ids) := by
  refine ⟨by decide, fun m ids => List.filter_sublist ids, fun m ids x => ?_⟩
  simp [StateManager.get_unprocessed]

/-- C6: auto-flush fires exactly on the Nth mutation: from a fresh
ledger with save interval N and auto-save enabled, a run of N minus one
mark calls leaves the persisted form absent, and the next call flushes,
leaving a present persisted form and a zero unsaved counter. -/
theorem C6_auto_flush (N : Nat) (ids : List String) (id now : String)
    (hN : 0 < N) (hlen : ids.length = N - 1) :
    (markAll (StateManager.fresh N none) ids now true).state_file = none
    ∧ ((markAll (StateManager.fresh N none) ids now true).mark_processed
        id now true true).state_file.isSome = true
    ∧ ((markAll (StateManager.fresh N none) ids now true).mark_processed
        id now true true).unsaved_count = 0 := by
  have hlt : (StateManager.fresh N none).unsaved_count + ids.length
      < (StateManager.fresh N none).save_interval := by
    show 0 + ids.length < N
    omega
  obtain ⟨hf, hu, hs⟩ := markAll_no_save ids (StateManager.fresh N none) now true hlt
  refine ⟨hf, ?_, ?_⟩
  · have hc : (markAll (StateManager.fresh N none) ids now true).save_interval
        ≤ (markAll (StateManager.fresh N none) ids now true).unsaved_count + 1 := by
      rw [hu, hs]
      show N ≤ 0 + ids.length + 1
      omega
    unfold StateManager.mark_processed StateManager.save
    simp [hc]
  · have hc : (markAll (StateManager.fresh N none) ids now true).save_interval
        ≤ (markAll (StateManager.fresh N none) ids now true).unsaved_count + 1 := by
      rw [hu, hs]
      show N ≤ 0 + ids.length + 1
      omega
    unfold StateManager.mark_processed StateManager.save
    simp [hc]

/-- Witness for C6 at the flush interval five of the spec example:
four marks leave no file, the fifth flushes. -/
theorem C6_auto_flush_witness :
    0 < 5 ∧ (["a", "b", "c", "d"] : List String).length = 5 - 1
    ∧ ((markAll (StateManager.fresh 5 none) ["a", "b", "c", "d"] "t" true).state_file = none
      ∧ ((markAll (StateManager.fresh 5 none) ["a", "b", "c", "d"] "t" true).mark_processed
          "e" "t" true true).state_file.isSome = true
      ∧ ((markAll (StateManager.fresh 5 none) ["a", "b", "c", "d"] "t" true).mark_processed
          "e" "t" true true).unsaved_count = 0) :=
  ⟨by decide, by decide, C6_auto_flush 5 ["a", "b", "c", "d"] "e" "t" (by decide) (by decide)⟩

/-- C10: the processed counter counts calls, not unique ids: from a
fresh ledger, a run of mark calls leaves the total equal to the number
of calls while the processed set holds exactly the distinct ids, so the
set size never exceeds the total; every single mark call, also on an
already-present id, increments the total and the unsaved counter; and
reset clears both the set and the counters. -/
theorem C10_counter_counts_calls (N : Nat) (ids : List String) (now : String) (ok : Bool) :
    ((markAll (StateManager.fresh N none) ids now ok).state.total_processed = ids.length
      ∧ (∀ x, x ∈ (markAll (StateManager.fresh N none) ids now ok).state.processed_ids
          ↔ x ∈ ids)
      ∧ (markAll (StateManager.fresh N none) ids now ok).state.processed_ids.Nodup
      ∧ (markAll (StateManager.fresh N none) ids now ok).state.processed_ids.length
          ≤ (markAll (StateManager.fresh N none) ids now ok).state.total_processed)
    ∧ (∀ (m : StateManager) (id now2 : String) (ok2 : Bool),
        (m.mark_processed id now2 false ok2).state.total_processed
            = m.state.total_processed + 1
          ∧ (m.mark_processed id now2 false ok2).unsaved_count = m.unsaved_count + 1)
    ∧ (∀ (m : StateManager) (unlink_ok : Bool),
        (m.reset unlink_ok).state.total_processed = 0
          ∧ (m.reset unlink_ok).state.processed_ids = []
          ∧ (m.reset unlink_ok).unsaved_count = 0) := by
  obtain ⟨ht, hp⟩ := markAll_state ids (StateManager.fresh N none) now ok
  refine ⟨⟨?_, ?_, ?_, ?_⟩, ?_, ?_⟩
  · rw [ht]
    show 0 + ids.length = ids.length
    omega
  · intro x
    rw [hp]
    have := foldl_setAdd_mem ids [] x
    simpa using this
  · rw [hp]
    exact foldl_setAdd_nodup ids [] List.nodup_nil
  · rw [hp, ht]
    show (List.foldl setAdd [] ids).length ≤ 0 + ids.length
    simpa using foldl_setAdd_length ids []
  · intro m id now2 ok2
    constructor
    · exact (mark_processed_state m id now2 false ok2).2.1
    · unfold StateManager.mark_processed
      simp
  · intro m unlink_ok
    unfold StateManager.reset
    by_cases h : unlink_ok = true
    · simp [h, ProcessingState.initial]
    · simp [h, ProcessingState.initial]

/-- C1 counterexample: for the batch of three records sharing the
non-empty key acme, engineer and carrying statuses Submitted,
Interview, Submitted in that order against an empty snapshot, the loop
emits one new record, but its status is Submitted, not the
highest-ranked Interview the claim predicts, and its link is the first
link, not the one that carried Interview. -/
theorem C1_counterexample :
    ((process_batch []
        [⟨"Acme", "Engineer", .SUBMITTED, "2026-01-01", "l1"⟩,
         ⟨"Acme", "Engineer", .INTERVIEW, "2026-01-02", "l2"⟩,
         ⟨"Acme", "Engineer", .SUBMITTED, "2026-01-03", "l3"⟩]).new_applications.map
          (fun a => a.status) = [ApplicationStatus.SUBMITTED])
    ∧ ¬ ((process_batch []
        [⟨"Acme", "Engineer", .SUBMITTED, "2026-01-01", "l1"⟩,
         ⟨"Acme", "Engineer", .INTERVIEW, "2026-01-02", "l2"⟩,
         ⟨"Acme", "Engineer", .SUBMITTED, "2026-01-03", "l3"⟩]).new_applications.map
          (fun a => a.status) = [ApplicationStatus.INTERVIEW]) := by
  decide

/-- C1 amended: for a batch whose records all share the key of its
first record, against a snapshot not containing that key, the loop
emits exactly one new record, namely the first record with its own
status and link; every later duplicate is skipped unconditionally, with
no status merge, and no update action is emitted. -/
theorem C1_first_occurrence_wins (snap : Snapshot) (a : JobApplication)
    (rest : List JobApplication)
    (hkeys : ∀ b ∈ rest, appKey b = appKey a)
    (hnew : snapHasKey snap (appKey a) = false) :
    (process_batch snap (a :: rest)).new_applications = [a]
    ∧ (process_batch snap (a :: rest)).updates = []
    ∧ (process_batch snap (a :: rest)).skipped_count = rest.length := by
  have hstep : dedupStep ⟨snap, [], [], 0⟩ a
      = ⟨snapInsert snap (appKey a) (0, a.status, a.email_link), [a], [], 0⟩ := by
    unfold dedupStep
    simp [snapLookup_eq_none_of_hasKey_false snap (appKey a) hnew]
  have hrun := foldl_dedupStep_skip_run rest (appKey a) a.status a.email_link
    (snapInsert snap (appKey a) (0, a.status, a.email_link)) [a] [] 0 hkeys
    (snapLookup_insert_self snap (appKey a) (0, a.status, a.email_link))
  unfold process_batch
  rw [List.foldl_cons, hstep, hrun]
  refine ⟨rfl, rfl, ?_⟩
  show 0 + rest.length = rest.length
  omega

/-- Witness for C1 amended at the Submitted, Interview, Submitted
batch of the claim: the one emitted record is the first one. -/
theorem C1_first_occurrence_wins_witness :
    (∀ b ∈ ([⟨"Acme", "Engineer", .INTERVIEW, "2026-01-02", "l2"⟩,
             ⟨"Acme", "Engineer", .SUBMITTED, "2026-01-03", "l3"⟩] : List JobApplication),
        appKey b = appKey ⟨"Acme", "Engineer", .SUBMITTED, "2026-01-01", "l1"⟩)
    ∧ snapHasKey [] (appKey ⟨"Acme", "Engineer", .SUBMITTED, "2026-01-01", "l1"⟩) = false
    ∧ ((process_batch []
          [⟨"Acme", "Engineer", .SUBMITTED, "2026-01-01", "l1"⟩,
           ⟨"Acme", "Engineer", .INTERVIEW, "2026-01-02", "l2"⟩,
           ⟨"Acme", "Engineer", .SUBMITTED, "2026-01-03", "l3"⟩]).new_applications
          = [⟨"Acme", "Engineer", .SUBMITTED, "2026-01-01", "l1"⟩]
        ∧ (process_batch []
          [⟨"Acme", "Engineer", .SUBMITTED, "2026-01-01", "l1"⟩,
           ⟨"Acme", "Engineer", .INTERVIEW, "2026-01-02", "l2"⟩,
           ⟨"Acme", "Engineer", .SUBMITTED, "2026-01-03", "l3"⟩]).updates = []
        ∧ (process_batch []
          [⟨"Acme", "Engineer", .SUBMITTED, "2026-01-01", "l1"⟩,
           ⟨"Acme", "Engineer", .INTERVIEW, "2026-01-02", "l2"⟩,
           ⟨"Acme", "Engineer", .SUBMITTED, "2026-01-03", "l3"⟩]).skipped_count
          = ([⟨"Acme", "Engineer", .INTERVIEW, "2026-01-02", "l2"⟩,
              ⟨"Acme", "Engineer", .SUBMITTED, "2026-01-03", "l3"⟩] : List JobApplication).length) :=
  ⟨by decide, by decide,
    C1_first_occurrence_wins [] ⟨"Acme", "Engineer", .SUBMITTED, "2026-01-01", "l1"⟩
      [⟨"Acme", "Engineer", .INTERVIEW, "2026-01-02", "l2"⟩,
       ⟨"Acme", "Engineer", .SUBMITTED, "2026-01-03", "l3"⟩] (by decide) (by decide)⟩

/-- C2 counterexample: one record with key acme, engineer and status
Interview against a snapshot holding that key at row 7 with status
Submitted. The run emits the update action, but the snapshot entry is
not refreshed to the candidate status and link, and a second run of the
loop on the same batch against the resulting snapshot emits the same
update again instead of zero actions. -/
theorem C2_counterexample :
    ((process_batch [(("acme", "engineer"), ((7 : Nat), ApplicationStatus.SUBMITTED, "linkA"))]
        [⟨"Acme", "Engineer", .INTERVIEW, "2026-01-02", "linkB"⟩]).updates
      = [(7, ApplicationStatus.INTERVIEW, "linkB")])
    ∧ ¬ (snapLookup
        (process_batch [(("acme", "engineer"), ((7 : Nat), ApplicationStatus.SUBMITTED, "linkA"))]
          [⟨"Acme", "Engineer", .INTERVIEW, "2026-01-02", "linkB"⟩]).existing
        ("acme", "engineer") = some (7, ApplicationStatus.INTERVIEW, "linkB"))
    ∧ ¬ ((process_batch
        (process_batch [(("acme", "engineer"), ((7 : Nat), ApplicationStatus.SUBMITTED, "linkA"))]
          [⟨"Acme", "Engineer", .INTERVIEW, "2026-01-02", "linkB"⟩]).existing
        [⟨"Acme", "Engineer", .INTERVIEW, "2026-01-02", "linkB"⟩]).updates = []) := by
  decide

/-- C2 amended: the update path leaves the in-memory snapshot entry
untouched, so only the new path is idempotent: a second run of the loop
on the same batch against the resulting snapshot emits zero new
records, for every batch and snapshot, but it re-emits the update for a
record whose status still outranks the unrefreshed snapshot entry, as
the concrete Interview-over-Submitted batch shows. -/
theorem C2_second_run_no_new :
    (∀ (snap : Snapshot) (batch : List JobApplication),
      (process_batch (process_batch snap batch).existing batch).new_applications = [])
    ∧ ((process_batch
          (process_batch [(("acme", "engineer"), ((7 : Nat), ApplicationStatus.SUBMITTED, "linkA"))]
            [⟨"Acme", "Engineer", .INTERVIEW, "2026-01-02", "linkB"⟩]).existing
          [⟨"Acme", "Engineer", .INTERVIEW, "2026-01-02", "linkB"⟩]).updates
        = (process_batch [(("acme", "engineer"), ((7 : Nat), ApplicationStatus.SUBMITTED, "linkA"))]
            [⟨"Acme", "Engineer", .INTERVIEW, "2026-01-02", "linkB"⟩]).updates) := by
  constructor
  · intro snap batch
    have hkeys : ∀ a ∈ batch,
        snapHasKey (⟨(process_batch snap batch).existing, [], [], 0⟩ : DedupResult).existing
          (appKey a) = true := by
      intro a ha
      show snapHasKey (process_batch snap batch).existing (appKey a) = true
      unfold process_batch
      exact foldl_dedupStep_adds_keys batch _ a ha
    exact (foldl_dedupStep_no_new batch ⟨(process_batch snap batch).existing, [], [], 0⟩ hkeys).1
  · decide

/-- C3 counterexample: two records with an empty normalized company
half and the same role against an empty snapshot. The claim predicts
both are appended as new; the loop appends only the first and skips the
second as an in-batch duplicate of the empty-half key. -/
theorem C3_counterexample :
    ((process_batch []
        [⟨"", "Engineer", .SUBMITTED, "d", "k1"⟩,
         ⟨"", "Engineer", .SUBMITTED, "d", "k2"⟩]).new_applications.length = 1)
    ∧ ¬ ((process_batch []
        [⟨"", "Engineer", .SUBMITTED, "d", "k1"⟩,
         ⟨"", "Engineer", .SUBMITTED, "d", "k2"⟩]).new_applications.length = 2) := by
  decide

/-- C3 amended: empty-half keys never collide with persisted rows
because the snapshot built from the sheet only stores keys whose two
normalized halves are non-empty; but inside one batch the loop
deduplicates empty-half keys like any other key: of two records sharing
an empty company half, only the first is appended as new and the second
is skipped, with no update emitted. -/
theorem C3_empty_keys_dedup_in_batch :
    (∀ rows : List (List String),
      (get_existing_applications rows).all
        (fun p => decide (p.1.1 ≠ "" ∧ p.1.2 ≠ "")) = true)
    ∧ ((process_batch []
          [⟨"", "Engineer", .SUBMITTED, "d", "k1"⟩,
           ⟨"", "Engineer", .SUBMITTED, "d", "k2"⟩]).new_applications
        = [⟨"", "Engineer", .SUBMITTED, "d", "k1"⟩]
      ∧ (process_batch []
          [⟨"", "Engineer", .SUBMITTED, "d", "k1"⟩,
           ⟨"", "Engineer", .SUBMITTED, "d", "k2"⟩]).skipped_count = 1
      ∧ (process_batch []
          [⟨"", "Engineer", .SUBMITTED, "d", "k1"⟩,
           ⟨"", "Engineer", .SUBMITTED, "d", "k2"⟩]).updates = []) := by
  constructor
  · intro rows
    unfold get_existing_applications
    exact get_existing_applications_keys ((rows.drop 1).enum) [] rfl
  · decide
